import Mathlib

/-!
Shallow embedding of the FSM engine of the repository:
- the TextStats scanner in its three dispatch variants
  (tagged enum `benches/01_enums_fsm.rs`, trait objects `benches/02_traits_fsm.rs`,
  typestate `examples/07_state_machine_typed_stats1.rs`);
- the block-comment byte counter (`examples/06_state_machine_enums_comments.rs`
  and `old/06_state_machine_comments.rs`).

Rust's `char::is_alphabetic` and `char::is_numeric` consult Unicode tables, so
the embedding is parametric in two classifiers `alpha num : Char → Bool`;
theorems that need facts about them (for instance that a newline is neither
alphabetic nor numeric, true of Unicode) take those facts as hypotheses.
Concrete evaluations instantiate the classifiers with `asciiIsAlphabetic` /
`asciiIsNumeric`, which agree with Rust's classifiers on every ASCII character,
and all concrete inputs used below are ASCII.
-/

/-- `TextStats` record of `01_enums_fsm.rs` (same fields in the other two
variants). Rust `usize` counters are modelled as `Nat`. -/
structure TextStats where
  word_count : Nat
  line_count : Nat
  number_count : Nat
deriving DecidableEq, Repr

/-- The three states of the TextStats automaton (`FsmState` in `01_enums_fsm.rs`). -/
inductive FsmState
  | Whitespace
  | InWord
  | InNumber
deriving DecidableEq, Repr

/-- `Fsm::process_char` of `benches/01_enums_fsm.rs`: one step of the tagged-enum
TextStats automaton.  The machine value pairs the current state with the
statistics record. -/
def processChar (alpha num : Char → Bool) (m : FsmState × TextStats) (c : Char) :
    FsmState × TextStats :=
  match m with
  | (FsmState.Whitespace, st) =>
    if alpha c then
      (FsmState.InWord, { st with word_count := st.word_count + 1 })
    else if num c then
      (FsmState.InNumber, { st with number_count := st.number_count + 1 })
    else if c = '\n' then
      (FsmState.Whitespace, { st with line_count := st.line_count + 1 })
    else
      (FsmState.Whitespace, st)
  | (FsmState.InWord, st) =>
    if !(alpha c) then
      (FsmState.Whitespace,
        if c = '\n' then { st with line_count := st.line_count + 1 } else st)
    else
      (FsmState.InWord, st)
  | (FsmState.InNumber, st) =>
    if !(num c) then
      (FsmState.Whitespace,
        if c = '\n' then { st with line_count := st.line_count + 1 } else st)
    else
      (FsmState.InNumber, st)

/-- `Fsm::process_text` of `benches/01_enums_fsm.rs`: fold `process_char` over
the characters of the input. -/
def processText (alpha num : Char → Bool) (m : FsmState × TextStats)
    (text : List Char) : FsmState × TextStats :=
  text.foldl (processChar alpha num) m

/-- `Fsm::new` of `benches/01_enums_fsm.rs`: start state `Whitespace`, zeroed stats. -/
def fsmNew : FsmState × TextStats :=
  (FsmState.Whitespace, ⟨0, 0, 0⟩)

/-- The three state objects of the trait-object variant (`benches/02_traits_fsm.rs`). -/
inductive TraitState
  | WhitespaceState
  | InWordState
  | InNumberState
deriving DecidableEq, Repr

/-- The three `FsmState::process_char` impls of `benches/02_traits_fsm.rs`,
dispatched on the current state object. -/
def traitProcessChar (alpha num : Char → Bool) (s : TraitState) (c : Char)
    (st : TextStats) : TraitState × TextStats :=
  match s with
  | TraitState.WhitespaceState =>
    if alpha c then
      (TraitState.InWordState, { st with word_count := st.word_count + 1 })
    else if num c then
      (TraitState.InNumberState, { st with number_count := st.number_count + 1 })
    else if c = '\n' then
      (TraitState.WhitespaceState, { st with line_count := st.line_count + 1 })
    else
      (TraitState.WhitespaceState, st)
  | TraitState.InWordState =>
    if !(alpha c) then
      (TraitState.WhitespaceState,
        if c = '\n' then { st with line_count := st.line_count + 1 } else st)
    else
      (TraitState.InWordState, st)
  | TraitState.InNumberState =>
    if !(num c) then
      (TraitState.WhitespaceState,
        if c = '\n' then { st with line_count := st.line_count + 1 } else st)
    else
      (TraitState.InNumberState, st)

/-- `TraitParser::process_text` of `benches/02_traits_fsm.rs` (take-and-replace
loop over the state handle). -/
def traitProcessText (alpha num : Char → Bool) (m : TraitState × TextStats)
    (text : List Char) : TraitState × TextStats :=
  text.foldl (fun m c => traitProcessChar alpha num m.1 c m.2) m

/-- `TraitParser::new`: start state object `WhitespaceState`, zeroed stats. -/
def traitParserNew : TraitState × TextStats :=
  (TraitState.WhitespaceState, ⟨0, 0, 0⟩)

/-- Rust `char::is_ascii_digit`, used by the typestate variant: exactly the
characters between `'0'` and `'9'`. -/
def isAsciiDigit (c : Char) : Bool :=
  '0' ≤ c && c ≤ '9'

/-- The sum type `Machine` of `examples/07_state_machine_typed_stats1.rs`: one
variant per typed machine `Fsm<Whitespace>`, `Fsm<InWord>`, `Fsm<InNumber>`,
each carrying its stats payload. -/
inductive Machine
  | White (stats : TextStats)
  | Word (stats : TextStats)
  | Number (stats : TextStats)
deriving DecidableEq, Repr

/-- `Fsm<Whitespace>::process_char` of `07_state_machine_typed_stats1.rs`:
counts a newline first, then dispatches on the character class
(alphabetic, then ASCII digit). -/
def whitespaceProcessChar (alpha : Char → Bool) (st : TextStats) (c : Char) :
    Machine :=
  let st := if c = '\n' then { st with line_count := st.line_count + 1 } else st
  if alpha c then
    Machine.Word { st with word_count := st.word_count + 1 }
  else if isAsciiDigit c then
    Machine.Number { st with number_count := st.number_count + 1 }
  else
    Machine.White st

/-- `Fsm<InWord>::process_char` of `07_state_machine_typed_stats1.rs`: permits
the direct word→number transition, counting the new number token. -/
def inWordProcessChar (alpha : Char → Bool) (st : TextStats) (c : Char) :
    Machine :=
  if c = '\n' then
    Machine.White { st with line_count := st.line_count + 1 }
  else if alpha c then
    Machine.Word st
  else if isAsciiDigit c then
    Machine.Number { st with number_count := st.number_count + 1 }
  else
    Machine.White st

/-- `Fsm<InNumber>::process_char` of `07_state_machine_typed_stats1.rs`: permits
the direct number→word transition, counting the new word token. -/
def inNumberProcessChar (alpha : Char → Bool) (st : TextStats) (c : Char) :
    Machine :=
  if c = '\n' then
    Machine.White { st with line_count := st.line_count + 1 }
  else if isAsciiDigit c then
    Machine.Number st
  else if alpha c then
    Machine.Word { st with word_count := st.word_count + 1 }
  else
    Machine.White st

/-- `Machine::process_char` of `07_state_machine_typed_stats1.rs`: dispatch on
the current variant and replace the machine by the returned one. -/
def Machine.processChar (alpha : Char → Bool) (m : Machine) (c : Char) : Machine :=
  match m with
  | Machine.White st => whitespaceProcessChar alpha st c
  | Machine.Word st => inWordProcessChar alpha st c
  | Machine.Number st => inNumberProcessChar alpha st c

/-- `Machine::stats`: the stats payload, identical projection for every variant. -/
def Machine.stats : Machine → TextStats
  | Machine.White st => st
  | Machine.Word st => st
  | Machine.Number st => st

/-- `Machine::new`: start in `White` with zeroed stats. -/
def machineNew : Machine :=
  Machine.White ⟨0, 0, 0⟩

/-- `process_text` of `07_state_machine_typed_stats1.rs`: drive the typestate
machine over the input and return the final stats. -/
def typedProcessText (alpha : Char → Bool) (text : List Char) : TextStats :=
  (text.foldl (Machine.processChar alpha) machineNew).stats

/-- `asciiIsAlphabetic` agrees with Rust `char::is_alphabetic` on every ASCII
character (the Unicode Alphabetic characters below U+0080 are exactly the
letters A–Z and a–z). All concrete inputs below are ASCII. -/
def asciiIsAlphabetic (c : Char) : Bool :=
  ('A' ≤ c && c ≤ 'Z') || ('a' ≤ c && c ≤ 'z')

/-- `asciiIsNumeric` agrees with Rust `char::is_numeric` on every ASCII
character (the characters of Unicode general category N below U+0080 are
exactly the digits 0–9). -/
def asciiIsNumeric (c : Char) : Bool :=
  '0' ≤ c && c ≤ '9'

/-- The four states of the comment byte counter
(`FsmState` in `examples/06_state_machine_enums_comments.rs`). -/
inductive CFsmState
  | Code
  | Slash
  | Block
  | BlockStar
deriving DecidableEq, Repr

/-- `Fsm::process_code` of `06_state_machine_enums_comments.rs`. Bytes are
modelled as `Nat` (`b'/'` = 47, `b'*'` = 42); the returned number of counted
bytes (`u64`) as `Nat`. -/
def processCode (b : Nat) : CFsmState × Nat :=
  if b = 47 then (CFsmState.Slash, 0) else (CFsmState.Code, 0)

/-- `Fsm::process_slash` of `06_state_machine_enums_comments.rs`. -/
def processSlash (b : Nat) : CFsmState × Nat :=
  if b = 42 then (CFsmState.Block, 0) else (CFsmState.Code, 0)

/-- `Fsm::process_comment` of `06_state_machine_enums_comments.rs`. -/
def processComment (b : Nat) : CFsmState × Nat :=
  if b = 42 then (CFsmState.BlockStar, 0) else (CFsmState.Block, 1)

/-- `Fsm::process_star` of `06_state_machine_enums_comments.rs`. -/
def processStar (b : Nat) : CFsmState × Nat :=
  if b = 47 then (CFsmState.Code, 0)
  else if b = 42 then (CFsmState.BlockStar, 1)
  else (CFsmState.Block, 2)

/-- `Fsm::process_byte` of `06_state_machine_enums_comments.rs`: dispatch on
the current state. -/
def processByte (s : CFsmState) (b : Nat) : CFsmState × Nat :=
  match s with
  | CFsmState.Code => processCode b
  | CFsmState.Slash => processSlash b
  | CFsmState.Block => processComment b
  | CFsmState.BlockStar => processStar b

/-- `FsmState::transition` of `old/06_state_machine_comments.rs`: the same
table written as a single match on (state, byte). -/
def transition (s : CFsmState) (b : Nat) : CFsmState × Nat :=
  match s, b with
  | CFsmState.Code, 47 => (CFsmState.Slash, 0)
  | CFsmState.Code, _ => (CFsmState.Code, 0)
  | CFsmState.Slash, 42 => (CFsmState.Block, 0)
  | CFsmState.Slash, _ => (CFsmState.Code, 0)
  | CFsmState.Block, 42 => (CFsmState.BlockStar, 0)
  | CFsmState.Block, _ => (CFsmState.Block, 1)
  | CFsmState.BlockStar, 47 => (CFsmState.Code, 0)
  | CFsmState.BlockStar, 42 => (CFsmState.BlockStar, 1)
  | CFsmState.BlockStar, _ => (CFsmState.Block, 2)

/-- One iteration of the byte loop of `main` in both comment-counter files:
step the state and add the returned count to the running total. -/
def commentStep (m : CFsmState × Nat) (b : Nat) : CFsmState × Nat :=
  ((processByte m.1 b).1, m.2 + (processByte m.1 b).2)

/-- The byte loop of `main` in `06_state_machine_enums_comments.rs`: starting
from machine state and running total `m`, consume the bytes in order. -/
def commentScan (m : CFsmState × Nat) (bs : List Nat) : CFsmState × Nat :=
  bs.foldl commentStep m

/-- The two comment-counter files implement the same transition table. -/
theorem processByte_eq_transition (s : CFsmState) (b : Nat) :
    processByte s b = transition s b := by
  cases s <;>
    simp only [processByte, processCode, processSlash, processComment,
      processStar, transition] <;>
    rcases Nat.decEq b 47 with h47 | h47 <;>
    rcases Nat.decEq b 42 with h42 | h42 <;>
    simp_all [transition]

/-- C2: counterexample. Scanning the six bytes slash, star, star, star, slash,
space from state `Code` counts 1 byte, not 2: the comment body between the
delimiters is the single middle star. -/
theorem commentScan_three_star_cex :
    (commentScan (CFsmState.Code, 0) [47, 42, 42, 42, 47, 32]).2 ≠ 2 ∧
    (commentScan (CFsmState.Code, 0) [47, 42, 42, 42, 47, 32]).2 = 1 := by
  decide

/-- C2 (amended): the byte sequence slash, star, star, star, slash, space
(`/***/ `) yields exactly 1 counted byte; the total of 2 traced in the spec
belongs to the input with three stars between the delimiters
(slash, star, star, star, star, slash, i.e. `/****/`). -/
theorem commentScan_star_runs :
    (commentScan (CFsmState.Code, 0) [47, 42, 42, 42, 47, 32]).2 = 1 ∧
    (commentScan (CFsmState.Code, 0) [47, 42, 42, 42, 42, 47]).2 = 2 := by
  decide

/-- C3: from `BlockStar`, any byte other than star (42) and slash (47) moves to
`Block` and counts exactly 2 bytes (the pending star plus the current byte);
consequently scanning `/**a*/` from `Code` counts exactly 2 bytes. -/
theorem blockStar_other_counts_two :
    (∀ b : Nat, b ≠ 42 → b ≠ 47 → processStar b = (CFsmState.Block, 2)) ∧
    (commentScan (CFsmState.Code, 0) [47, 42, 42, 97, 42, 47]).2 = 2 := by
  constructor
  · intro b h42 h47
    simp [processStar, h42, h47]
  · decide

/-- C3: witness instantiating the `BlockStar` edge-case rule at byte `'a'` (97). -/
theorem blockStar_other_counts_two_witness :
    processStar 97 = (CFsmState.Block, 2) :=
  blockStar_other_counts_two.1 97 (by decide) (by decide)

/-- C4: on `"ab 12\ncd"` the canonical (tagged-enum) scan started at
`Whitespace` with zeroed stats yields 2 words, 1 line, 1 number; the typestate
driver agrees on this input. -/
theorem processText_ab12cd :
    (processText asciiIsAlphabetic asciiIsNumeric fsmNew
      ['a', 'b', ' ', '1', '2', '\n', 'c', 'd']).2 = ⟨2, 1, 1⟩ ∧
    typedProcessText asciiIsAlphabetic
      ['a', 'b', ' ', '1', '2', '\n', 'c', 'd'] = ⟨2, 1, 1⟩ := by
  constructor <;> rfl

/-- The trait-object state corresponding to each tagged-enum state. -/
def TraitState.toFsmState : TraitState → FsmState
  | TraitState.WhitespaceState => FsmState.Whitespace
  | TraitState.InWordState => FsmState.InWord
  | TraitState.InNumberState => FsmState.InNumber

/-- One step of the trait-object variant matches one step of the tagged-enum
variant, state object mapped to the corresponding tag. -/
theorem traitProcessChar_agrees (alpha num : Char → Bool) (s : TraitState)
    (c : Char) (st : TextStats) :
    ((traitProcessChar alpha num s c st).1.toFsmState,
      (traitProcessChar alpha num s c st).2) =
      processChar alpha num (s.toFsmState, st) c := by
  cases s <;>
    cases ha : alpha c <;>
    cases hn : num c <;>
    by_cases hnl : c = '\n' <;>
    first
      | (subst hnl
         simp [traitProcessChar, processChar, TraitState.toFsmState, ha, hn])
      | simp [traitProcessChar, processChar, TraitState.toFsmState, ha, hn, hnl]

/-- Folding the trait-object variant over any input matches the tagged-enum
fold, state object mapped to the corresponding tag. -/
theorem traitProcessText_agrees (alpha num : Char → Bool) (cs : List Char)
    (s : TraitState) (st : TextStats) :
    ((traitProcessText alpha num (s, st) cs).1.toFsmState,
      (traitProcessText alpha num (s, st) cs).2) =
      processText alpha num (s.toFsmState, st) cs := by
  induction cs generalizing s st with
  | nil => rfl
  | cons c cs ih =>
    have h := traitProcessChar_agrees alpha num s c st
    simp only [traitProcessText, processText, List.foldl_cons] at *
    rw [← h]
    exact ih _ _

/-- C1 (amended): for every input and every pair of character classifiers, the
tagged-variant and the dynamic-interface scans yield identical final
`TextStats`; the typestate scan is excluded (it genuinely diverges, see the
counterexample). -/
theorem enum_trait_scan_equal (alpha num : Char → Bool) (cs : List Char) :
    (traitProcessText alpha num traitParserNew cs).2 =
      (processText alpha num fsmNew cs).2 :=
  congrArg Prod.snd (traitProcessText_agrees alpha num cs
    TraitState.WhitespaceState ⟨0, 0, 0⟩)

/-- C1: counterexample. On input `"a1"` the typestate scan counts a number
token on the direct word→number transition, while the tagged-enum scan does
not, so the three dispatch strategies do not all yield identical accumulators. -/
theorem typed_scan_differs_cex :
    typedProcessText asciiIsAlphabetic ['a', '1'] ≠
      (processText asciiIsAlphabetic asciiIsNumeric fsmNew ['a', '1']).2 ∧
    typedProcessText asciiIsAlphabetic ['a', '1'] = ⟨1, 0, 1⟩ ∧
    (processText asciiIsAlphabetic asciiIsNumeric fsmNew ['a', '1']).2 =
      ⟨1, 0, 0⟩ := by
  decide

/-- C7: chunk invariance of both drivers. Scanning a concatenated input in one
call yields the same machine value (final state and accumulator) as scanning
the first chunk and then feeding the second chunk to the resulting machine. -/
theorem scan_chunk_invariant :
    (∀ (alpha num : Char → Bool) (m : FsmState × TextStats) (l1 l2 : List Char),
      processText alpha num m (l1 ++ l2) =
        processText alpha num (processText alpha num m l1) l2) ∧
    (∀ (m : CFsmState × Nat) (bs1 bs2 : List Nat),
      commentScan m (bs1 ++ bs2) = commentScan (commentScan m bs1) bs2) := by
  constructor <;> intros <;>
    simp [processText, commentScan, List.foldl_append]

/-- One TextStats step never decreases any counter. -/
theorem processChar_mono (alpha num : Char → Bool) (m : FsmState × TextStats)
    (c : Char) :
    m.2.word_count ≤ (processChar alpha num m c).2.word_count ∧
    m.2.line_count ≤ (processChar alpha num m c).2.line_count ∧
    m.2.number_count ≤ (processChar alpha num m c).2.number_count := by
  obtain ⟨s, st⟩ := m
  by_cases hnl : c = '\n'
  · subst hnl
    by_cases ha : alpha '\n' = true <;> by_cases hn : num '\n' = true <;>
      cases s <;> simp [processChar, ha, hn]
  · by_cases ha : alpha c = true <;> by_cases hn : num c = true <;>
      cases s <;> simp [processChar, ha, hn, hnl]

/-- A TextStats scan never decreases any counter. -/
theorem processText_mono (alpha num : Char → Bool) (cs : List Char)
    (m : FsmState × TextStats) :
    m.2.word_count ≤ (processText alpha num m cs).2.word_count ∧
    m.2.line_count ≤ (processText alpha num m cs).2.line_count ∧
    m.2.number_count ≤ (processText alpha num m cs).2.number_count := by
  induction cs generalizing m with
  | nil => simp [processText]
  | cons c cs ih =>
    have h1 := processChar_mono alpha num m c
    have h2 := ih (processChar alpha num m c)
    simp only [processText, List.foldl_cons] at *
    exact ⟨le_trans h1.1 h2.1, le_trans h1.2.1 h2.2.1, le_trans h1.2.2 h2.2.2⟩

/-- One comment-counter step never decreases the running byte total. -/
theorem commentStep_mono (m : CFsmState × Nat) (b : Nat) :
    m.2 ≤ (commentStep m b).2 := by
  simp [commentStep]

/-- A comment-counter scan never decreases the running byte total. -/
theorem commentScan_mono (bs : List Nat) (m : CFsmState × Nat) :
    m.2 ≤ (commentScan m bs).2 := by
  induction bs generalizing m with
  | nil => simp [commentScan]
  | cons b bs ih =>
    have h1 := commentStep_mono m b
    have h2 := ih (commentStep m b)
    simp only [commentScan, List.foldl_cons] at *
    exact le_trans h1 h2

/-- C8: every single transition of either automaton leaves every accumulator
field greater than or equal to its previous value, and hence every scan does
too (the counters are monotonically non-decreasing). -/
theorem accumulators_monotone :
    (∀ (alpha num : Char → Bool) (m : FsmState × TextStats) (c : Char),
      m.2.word_count ≤ (processChar alpha num m c).2.word_count ∧
      m.2.line_count ≤ (processChar alpha num m c).2.line_count ∧
      m.2.number_count ≤ (processChar alpha num m c).2.number_count) ∧
    (∀ (m : CFsmState × Nat) (b : Nat), m.2 ≤ (commentStep m b).2) ∧
    (∀ (alpha num : Char → Bool) (m : FsmState × TextStats) (cs : List Char),
      m.2.word_count ≤ (processText alpha num m cs).2.word_count ∧
      m.2.line_count ≤ (processText alpha num m cs).2.line_count ∧
      m.2.number_count ≤ (processText alpha num m cs).2.number_count) ∧
    (∀ (m : CFsmState × Nat) (bs : List Nat), m.2 ≤ (commentScan m bs).2) :=
  ⟨fun alpha num m c => processChar_mono alpha num m c,
   fun m b => commentStep_mono m b,
   fun alpha num m cs => processText_mono alpha num cs m,
   fun m bs => commentScan_mono bs m⟩

/-- 1 while a star is pending in `BlockStar` (it may still be counted later),
0 in every other state. -/
def starPending : CFsmState → Nat
  | CFsmState.BlockStar => 1
  | _ => 0

/-- Each comment-counter step adds at most one to the total plus the pending
star: every counted unit is backed by a distinct consumed byte. -/
theorem commentStep_bound (m : CFsmState × Nat) (b : Nat) :
    (commentStep m b).2 + starPending (commentStep m b).1 ≤
      m.2 + starPending m.1 + 1 := by
  obtain ⟨s, n⟩ := m
  by_cases h47 : b = 47 <;> by_cases h42 : b = 42 <;>
    cases s <;>
    simp [commentStep, processByte, processCode, processSlash, processComment,
      processStar, starPending, h47, h42] <;>
    omega

/-- Over a whole scan the total plus the pending star grows by at most the
number of consumed bytes. -/
theorem commentScan_bound (bs : List Nat) (m : CFsmState × Nat) :
    (commentScan m bs).2 + starPending (commentScan m bs).1 ≤
      m.2 + starPending m.1 + bs.length := by
  induction bs generalizing m with
  | nil => simp [commentScan]
  | cons b bs ih =>
    have h1 := commentStep_bound m b
    have h2 := ih (commentStep m b)
    simp only [commentScan, List.foldl_cons, List.length_cons] at *
    omega

/-- C10: starting in `Code` with total 0, the number of counted bytes over any
byte sequence is at most the length of that sequence. -/
theorem commentScan_le_length (bs : List Nat) :
    (commentScan (CFsmState.Code, 0) bs).2 ≤ bs.length := by
  have h := commentScan_bound bs (CFsmState.Code, 0)
  simp [starPending] at h
  omega

/-- C6: given that a newline is neither alphabetic nor numeric (true of
Unicode), processing `'\n'` from any state of the tagged-enum automaton, and
from any variant of the typestate machine, increments `line_count` by exactly
one and moves to the whitespace state. -/
theorem newline_increments_line (alpha num : Char → Bool)
    (hA : alpha '\n' = false) (hN : num '\n' = false) :
    (∀ (s : FsmState) (st : TextStats),
      processChar alpha num (s, st) '\n' =
        (FsmState.Whitespace, { st with line_count := st.line_count + 1 })) ∧
    (∀ m : Machine,
      Machine.processChar alpha m '\n' =
        Machine.White { m.stats with line_count := m.stats.line_count + 1 }) := by
  have hd : isAsciiDigit '\n' = false := rfl
  constructor
  · intro s st
    cases s <;> simp [processChar, hA, hN]
  · intro m
    cases m <;>
      simp [Machine.processChar, whitespaceProcessChar, inWordProcessChar,
        inNumberProcessChar, Machine.stats, hA, hd]

/-- C6: witness at the ASCII classifiers, the tagged state `InWord` with stats
(1, 2, 3) and the typestate variant `Number` with stats (4, 5, 6). -/
theorem newline_increments_line_witness :
    processChar asciiIsAlphabetic asciiIsNumeric
        (FsmState.InWord, ⟨1, 2, 3⟩) '\n' = (FsmState.Whitespace, ⟨1, 3, 3⟩) ∧
    Machine.processChar asciiIsAlphabetic (Machine.Number ⟨4, 5, 6⟩) '\n' =
      Machine.White ⟨4, 6, 6⟩ := by
  have h := newline_increments_line asciiIsAlphabetic asciiIsNumeric
    (by decide) (by decide)
  exact ⟨h.1 FsmState.InWord ⟨1, 2, 3⟩, h.2 (Machine.Number ⟨4, 5, 6⟩)⟩

/-- A single TextStats step increments `line_count` exactly on a newline. -/
theorem processChar_line (alpha num : Char → Bool)
    (hA : alpha '\n' = false) (hN : num '\n' = false)
    (m : FsmState × TextStats) (c : Char) :
    (processChar alpha num m c).2.line_count =
      m.2.line_count + (if c = '\n' then 1 else 0) := by
  obtain ⟨s, st⟩ := m
  by_cases hnl : c = '\n'
  · subst hnl
    cases s <;> simp [processChar, hA, hN]
  · by_cases ha : alpha c = true <;> by_cases hn : num c = true <;>
      cases s <;> simp [processChar, ha, hn, hnl]

/-- A TextStats scan adds one to `line_count` per newline consumed. -/
theorem processText_line (alpha num : Char → Bool)
    (hA : alpha '\n' = false) (hN : num '\n' = false)
    (cs : List Char) (m : FsmState × TextStats) :
    (processText alpha num m cs).2.line_count =
      m.2.line_count + cs.count '\n' := by
  induction cs generalizing m with
  | nil => simp [processText]
  | cons c cs ih =>
    have h1 := processChar_line alpha num hA hN m c
    simp only [processText, List.foldl_cons] at *
    rw [ih (processChar alpha num m c), h1]
    by_cases hnl : c = '\n' <;> simp [hnl, List.count_cons] <;> omega

/-- C9: given that a newline is neither alphabetic nor numeric, the final
`line_count` of both the tagged-enum scan and the trait-object scan equals the
number of `'\n'` characters in the input. -/
theorem line_count_eq_newlines (alpha num : Char → Bool)
    (hA : alpha '\n' = false) (hN : num '\n' = false) (cs : List Char) :
    (processText alpha num fsmNew cs).2.line_count = cs.count '\n' ∧
    (traitProcessText alpha num traitParserNew cs).2.line_count =
      cs.count '\n' := by
  have he := processText_line alpha num hA hN cs fsmNew
  have ht : (traitProcessText alpha num traitParserNew cs).2 =
      (processText alpha num fsmNew cs).2 :=
    congrArg Prod.snd (traitProcessText_agrees alpha num cs
      TraitState.WhitespaceState ⟨0, 0, 0⟩)
  refine ⟨by simpa [fsmNew] using he, ?_⟩
  rw [ht]
  simpa [fsmNew] using he

/-- C9: witness on the ASCII classifiers and the input `"a\nb\n"`. -/
theorem line_count_eq_newlines_witness :
    (processText asciiIsAlphabetic asciiIsNumeric fsmNew
      ['a', '\n', 'b', '\n']).2.line_count = 2 ∧
    (traitProcessText asciiIsAlphabetic asciiIsNumeric traitParserNew
      ['a', '\n', 'b', '\n']).2.line_count = 2 := by
  have h := line_count_eq_newlines asciiIsAlphabetic asciiIsNumeric
    (by decide) (by decide) ['a', '\n', 'b', '\n']
  exact ⟨by rw [h.1]; rfl, by rw [h.2]; rfl⟩

/-- A character that is neither alphabetic nor numeric sends every state of
the tagged-enum automaton to `Whitespace`. -/
theorem processChar_nonalnum (alpha num : Char → Bool)
    (m : FsmState × TextStats) (d : Char)
    (hA : alpha d = false) (hN : num d = false) :
    (processChar alpha num m d).1 = FsmState.Whitespace := by
  obtain ⟨s, st⟩ := m
  cases s <;> simp [processChar, hA, hN] <;> split <;> rfl

/-- After a prefix that is empty or ends in a character that is neither
alphabetic nor numeric, the tagged-enum automaton is in `Whitespace`. -/
theorem processText_state_whitespace (alpha num : Char → Bool)
    (p : List Char) (st : TextStats)
    (hp : p = [] ∨ ∃ q d, p = q ++ [d] ∧ alpha d = false ∧ num d = false) :
    (processText alpha num (FsmState.Whitespace, st) p).1 =
      FsmState.Whitespace := by
  rcases hp with rfl | ⟨q, d, rfl, hA, hN⟩
  · rfl
  · have happ : processText alpha num (FsmState.Whitespace, st) (q ++ [d]) =
        processChar alpha num
          (processText alpha num (FsmState.Whitespace, st) q) d := by
      simp [processText, List.foldl_append]
    rw [happ]
    exact processChar_nonalnum alpha num _ d hA hN

/-- From `InWord`, a list of alphabetic characters leaves the machine value
(state and stats) unchanged. -/
theorem inWord_stays (alpha num : Char → Bool) (r : List Char) (st : TextStats)
    (hr : ∀ x ∈ r, alpha x = true) :
    processText alpha num (FsmState.InWord, st) r = (FsmState.InWord, st) := by
  induction r with
  | nil => rfl
  | cons c r ih =>
    have hc : alpha c = true := hr c (List.mem_cons_self c r)
    have hstep : processChar alpha num (FsmState.InWord, st) c =
        (FsmState.InWord, st) := by
      simp [processChar, hc]
    simp only [processText, List.foldl_cons] at *
    rw [hstep]
    exact ih fun x hx => hr x (List.mem_cons_of_mem c hx)

/-- From `InNumber`, a list of numeric characters leaves the machine value
unchanged. -/
theorem inNumber_stays (alpha num : Char → Bool) (r : List Char) (st : TextStats)
    (hr : ∀ x ∈ r, num x = true) :
    processText alpha num (FsmState.InNumber, st) r =
      (FsmState.InNumber, st) := by
  induction r with
  | nil => rfl
  | cons c r ih =>
    have hc : num c = true := hr c (List.mem_cons_self c r)
    have hstep : processChar alpha num (FsmState.InNumber, st) c =
        (FsmState.InNumber, st) := by
      simp [processChar, hc]
    simp only [processText, List.foldl_cons] at *
    rw [hstep]
    exact ih fun x hx => hr x (List.mem_cons_of_mem c hx)

/-- C5: counterexample. On input `"1a"`, the character `'a'` forms a maximal
run of alphabetic characters (it is alphabetic, its predecessor `'1'` is not),
yet the scan ends with `word_count = 0`: the run is not counted at all,
because its first character is consumed leaving the `InNumber` state. -/
theorem maximal_run_not_counted_cex :
    (processText asciiIsAlphabetic asciiIsNumeric fsmNew ['1', 'a']).2.word_count = 0 ∧
    asciiIsAlphabetic 'a' = true ∧
    asciiIsAlphabetic '1' = false := by
  decide

/-- C5 (amended): a run of alphabetic characters that starts at the beginning
of the input or immediately after a character that is neither alphabetic nor
numeric increments `word_count` exactly once, on the run's first character;
dually for a run of numeric non-alphabetic characters and `number_count`.
(A run whose first character immediately follows the other token class is not
counted on its first character — see the counterexample.) -/
theorem token_counted_on_first_char (alpha num : Char → Bool)
    (p r : List Char) (c : Char) (st : TextStats)
    (hp : p = [] ∨ ∃ q d, p = q ++ [d] ∧ alpha d = false ∧ num d = false) :
    ((∀ x ∈ c :: r, alpha x = true) →
      (processText alpha num (FsmState.Whitespace, st) (p ++ [c])).2.word_count =
          (processText alpha num (FsmState.Whitespace, st) p).2.word_count + 1 ∧
      (processText alpha num (FsmState.Whitespace, st) (p ++ c :: r)).2.word_count =
          (processText alpha num (FsmState.Whitespace, st) p).2.word_count + 1) ∧
    ((∀ x ∈ c :: r, num x = true ∧ alpha x = false) →
      (processText alpha num (FsmState.Whitespace, st) (p ++ [c])).2.number_count =
          (processText alpha num (FsmState.Whitespace, st) p).2.number_count + 1 ∧
      (processText alpha num (FsmState.Whitespace, st) (p ++ c :: r)).2.number_count =
          (processText alpha num (FsmState.Whitespace, st) p).2.number_count + 1) := by
  have hstate := processText_state_whitespace alpha num p st hp
  have hmp : processText alpha num (FsmState.Whitespace, st) p =
      (FsmState.Whitespace,
        (processText alpha num (FsmState.Whitespace, st) p).2) :=
    congrArg
      (fun x => (x, (processText alpha num (FsmState.Whitespace, st) p).2))
      hstate
  have happ1 : processText alpha num (FsmState.Whitespace, st) (p ++ [c]) =
      processChar alpha num
        (processText alpha num (FsmState.Whitespace, st) p) c := by
    simp [processText, List.foldl_append]
  have happ2 : processText alpha num (FsmState.Whitespace, st) (p ++ c :: r) =
      processText alpha num
        (processText alpha num (FsmState.Whitespace, st) (p ++ [c])) r := by
    have : p ++ c :: r = (p ++ [c]) ++ r := by simp
    rw [this]
    simp [processText, List.foldl_append]
  constructor
  · intro h
    have hc : alpha c = true := h c (List.mem_cons_self c r)
    have hfirst : processText alpha num (FsmState.Whitespace, st) (p ++ [c]) =
        (FsmState.InWord,
          { (processText alpha num (FsmState.Whitespace, st) p).2 with
              word_count :=
                (processText alpha num
                  (FsmState.Whitespace, st) p).2.word_count + 1 }) := by
      rw [happ1, hmp]
      simp [processChar, hc]
    refine ⟨by rw [hfirst], ?_⟩
    rw [happ2, hfirst, inWord_stays alpha num r _
      fun x hx => h x (List.mem_cons_of_mem c hx)]
  · intro h
    have hc : num c = true := (h c (List.mem_cons_self c r)).1
    have hca : alpha c = false := (h c (List.mem_cons_self c r)).2
    have hfirst : processText alpha num (FsmState.Whitespace, st) (p ++ [c]) =
        (FsmState.InNumber,
          { (processText alpha num (FsmState.Whitespace, st) p).2 with
              number_count :=
                (processText alpha num
                  (FsmState.Whitespace, st) p).2.number_count + 1 }) := by
      rw [happ1, hmp]
      simp [processChar, hc, hca]
    refine ⟨by rw [hfirst], ?_⟩
    rw [happ2, hfirst, inNumber_stays alpha num r _
      fun x hx => (h x (List.mem_cons_of_mem c hx)).1]

/-- C5: witness. The word run `"ab"` at the start of the input is counted once
on `'a'`, and the number run `"12"` after the non-alphanumeric `' '` is counted
once on `'1'`, under the ASCII classifiers. -/
theorem token_counted_on_first_char_witness :
    ((processText asciiIsAlphabetic asciiIsNumeric
        (FsmState.Whitespace, ⟨0, 0, 0⟩) ['a']).2.word_count =
      (processText asciiIsAlphabetic asciiIsNumeric
        (FsmState.Whitespace, ⟨0, 0, 0⟩) []).2.word_count + 1 ∧
     (processText asciiIsAlphabetic asciiIsNumeric
        (FsmState.Whitespace, ⟨0, 0, 0⟩) ['a', 'b']).2.word_count =
      (processText asciiIsAlphabetic asciiIsNumeric
        (FsmState.Whitespace, ⟨0, 0, 0⟩) []).2.word_count + 1) ∧
    ((processText asciiIsAlphabetic asciiIsNumeric
        (FsmState.Whitespace, ⟨0, 0, 0⟩) [' ', '1']).2.number_count =
      (processText asciiIsAlphabetic asciiIsNumeric
        (FsmState.Whitespace, ⟨0, 0, 0⟩) [' ']).2.number_count + 1 ∧
     (processText asciiIsAlphabetic asciiIsNumeric
        (FsmState.Whitespace, ⟨0, 0, 0⟩) [' ', '1', '2']).2.number_count =
      (processText asciiIsAlphabetic asciiIsNumeric
        (FsmState.Whitespace, ⟨0, 0, 0⟩) [' ']).2.number_count + 1) := by
  refine ⟨(token_counted_on_first_char asciiIsAlphabetic asciiIsNumeric
      [] ['b'] 'a' ⟨0, 0, 0⟩ (Or.inl rfl)).1 (by decide),
    (token_counted_on_first_char asciiIsAlphabetic asciiIsNumeric
      [' '] ['2'] '1' ⟨0, 0, 0⟩
      (Or.inr ⟨[], ' ', rfl, by decide, by decide⟩)).2 (by decide)⟩
